import Mathlib

/-
Verification development for the polymarket-arbitrage-bot-btc-15m repository.
The repository ships narrative rule descriptions (logic.md and
docs/TARGET_STRATEGY_ANALYSIS.md) together with a process-supervision config
pointing at a prebuilt binary; the Position & Decision Engine itself is not
present as source.  The definitions below are therefore a shallow embedding
of that engine, modelled from the specification's component contracts, with
prices, costs and quantities as exact rationals.
-/

deriving instance DecidableEq for Except

namespace PolyBot

/-- Modelled from the spec: the two binary-outcome contract sides, Up and Down. -/
inductive Side
  | up
  | down
  deriving DecidableEq, Repr

/-- Modelled from the spec: the opposite side of a binary market. -/
def Side.other : Side → Side
  | .up => .down
  | .down => .up

/-- Modelled from the spec: TrendDetector classification outcomes. -/
inductive TrendState
  | Rising
  | Falling
  | NoProgress
  deriving DecidableEq, Repr

/-- Modelled from the spec: the per-market-type tag used for base sizing. -/
inductive MarketType
  | btc15m
  | eth15m
  | btc1h
  | eth1h
  deriving DecidableEq, Repr

/-- Modelled from the spec: push a new ask sample into a trend window
(most-recent-last) keeping at most the last 5 samples (ring-buffer semantics:
oldest evicted on overflow). -/
def pushSample (w : List ℚ) (p : ℚ) : List ℚ :=
  let w2 := w ++ [p]
  if w2.length ≤ 5 then w2 else w2.drop (w2.length - 5)

/-- Modelled from the spec: intermediate monotonicity check, non-decreasing
from earliest (head) to latest (last). -/
def nondecList : List ℚ → Bool
  | [] => true
  | [_] => true
  | a :: b :: t => decide (a ≤ b) && nondecList (b :: t)

/-- Modelled from the spec: intermediate monotonicity check, non-increasing
from earliest (head) to latest (last). -/
def nonincList : List ℚ → Bool
  | [] => true
  | [_] => true
  | a :: b :: t => decide (b ≤ a) && nonincList (b :: t)

/-- Modelled from the spec: TrendDetector classification.  Compares the
earliest vs latest value of the window and requires intermediate monotonicity
over at least 3 samples; fewer than 3 samples, a non-monotonic window, or a
tie (no net movement) yields NoProgress. -/
def classify (w : List ℚ) : TrendState :=
  if w.length < 3 then .NoProgress
  else if nondecList w && decide (w.headD 0 < w.getLastD 0) then .Rising
  else if nonincList w && decide (w.getLastD 0 < w.headD 0) then .Falling
  else .NoProgress

/-- Modelled from the spec: per-market inventory and cost basis, owned by the
PositionLedger.  Shares and cumulative dollar cost per side. -/
structure Position where
  up_shares : ℚ
  up_cost : ℚ
  down_shares : ℚ
  down_cost : ℚ
  deriving DecidableEq, Repr

/-- Modelled from the spec: the empty position (no shares, no cost). -/
def Position.empty : Position := ⟨0, 0, 0, 0⟩

/-- Modelled from the spec: shares held on a given side. -/
def Position.shares (p : Position) : Side → ℚ
  | .up => p.up_shares
  | .down => p.down_shares

/-- Modelled from the spec: cumulative dollars spent on a given side. -/
def Position.cost (p : Position) : Side → ℚ
  | .up => p.up_cost
  | .down => p.down_cost

/-- Modelled from the spec: derived total cost, up_cost + down_cost. -/
def Position.total_cost (p : Position) : ℚ := p.up_cost + p.down_cost

/-- Modelled from the spec: average price paid on a side, cost / shares. -/
def Position.avg (p : Position) (s : Side) : ℚ := p.cost s / p.shares s

/-- Modelled from the spec: derived PnL if the given side wins, shares of
that side times the $1 payout minus total cost. -/
def Position.pnlIfWins (p : Position) (s : Side) : ℚ := p.shares s - p.total_cost

/-- Modelled from the spec: derived pnl_if_up_wins. -/
def Position.pnl_if_up_wins (p : Position) : ℚ := p.up_shares - p.total_cost

/-- Modelled from the spec: derived pnl_if_down_wins. -/
def Position.pnl_if_down_wins (p : Position) : ℚ := p.down_shares - p.total_cost

/-- Modelled from the spec: matched pairs, min of the two share counts. -/
def Position.pairs (p : Position) : ℚ := min p.up_shares p.down_shares

/-- Modelled from the spec: cost per matched pair, total cost / pairs. -/
def Position.cost_per_pair (p : Position) : ℚ := p.total_cost / p.pairs

/-- Modelled from the spec: effect of one confirmed fill on a position, adding
qty shares at the given price on the given side. -/
def Position.addFill (p : Position) (s : Side) (qty price : ℚ) : Position :=
  match s with
  | .up => { p with up_shares := p.up_shares + qty, up_cost := p.up_cost + qty * price }
  | .down => { p with down_shares := p.down_shares + qty, down_cost := p.down_cost + qty * price }

/-- Modelled from the spec: apply a list of (qty, price) fills on one side. -/
def Position.applyFills (p : Position) (s : Side) (fills : List (ℚ × ℚ)) : Position :=
  fills.foldl (fun q f => q.addFill s f.1 f.2) p

/-- Modelled from the spec: an immutable Trade record appended to the trade
log on every confirmed fill. -/
structure Trade where
  market : Nat
  side : Side
  qty : ℚ
  price : ℚ
  deriving DecidableEq, Repr

/-- Modelled from the spec: the PositionLedger state for one market — the
rolling Position plus the append-only trade log. -/
structure Ledger where
  pos : Position
  trades : List Trade
  deriving DecidableEq, Repr

/-- Modelled from the spec: the empty ledger. -/
def Ledger.empty : Ledger := ⟨Position.empty, []⟩

/-- Modelled from the spec: ledger error taxonomy for fills. -/
inductive LedgerError
  | invalidFill
  deriving DecidableEq, Repr

/-- Modelled from the spec: the successful-fill update — append a Trade and
increment that side's shares and cost. -/
def Ledger.addFill (l : Ledger) (market : Nat) (s : Side) (qty price : ℚ) : Ledger :=
  { pos := l.pos.addFill s qty price, trades := l.trades ++ [⟨market, s, qty, price⟩] }

/-- Modelled from the spec: record_fill(market, side, qty, price) requires
qty > 0 and price in the open interval (0,1), else fails with InvalidFill;
on success it appends a Trade and increments shares and cost for that side. -/
def record_fill (l : Ledger) (market : Nat) (s : Side) (qty price : ℚ) :
    Except LedgerError Ledger :=
  if 0 < qty ∧ 0 < price ∧ price < 1 then
    .ok (l.addFill market s qty price)
  else
    .error .invalidFill

/-- Modelled from the spec: strategy configuration surface — cost_per_pair_max,
per-market-type base size, time-decay sizing knobs (threshold, reduction
factor modelling size_min_ratio, floor size_min_shares), and the Expansion
rule's iteration cap (flagged an implementer tunable by the spec). -/
structure StrategyConfig where
  cost_per_pair_max : ℚ
  base_size : MarketType → ℚ
  size_reduce_after_secs : ℚ
  size_reduce_factor : ℚ
  size_min_shares : ℚ
  expansion_max_iters : ℕ

/-- Modelled from the spec: SizingPolicy.size_for — base quantity is the
per-market-type constant; once time_to_close falls below the configured
threshold the quantity is scaled by the configured factor, then floored at
size_min_shares. -/
def size_for (cfg : StrategyConfig) (mt : MarketType) (time_to_close : ℚ)
    (shares_so_far : ℚ) : ℚ :=
  let base := cfg.base_size mt
  let scaled := if time_to_close < cfg.size_reduce_after_secs
    then base * cfg.size_reduce_factor else base
  max scaled cfg.size_min_shares

/-- Modelled from the spec: decision-engine error taxonomy — NoQuote when a
required ask is missing, StaleMarket when invoked post-closure. -/
inductive EngineError
  | NoQuote
  | StaleMarket
  deriving DecidableEq, Repr

/-- Modelled from the spec: which rule of the priority-ordered rule set fired. -/
inductive RuleId
  | noPositionRule
  | lockRule
  | expansionRule
  deriving DecidableEq, Repr

/-- Modelled from the spec: the engine's per-tick output — NoAction, or an
action tagged with the rule that fired, the side bought, and the list of
(qty, price) fills it emits. -/
inductive Decision
  | noAction
  | act (rule : RuleId) (side : Side) (fills : List (ℚ × ℚ))
  deriving DecidableEq, Repr

/-- Modelled from the spec: the per-tick input to the DecisionEngine — market
id, the two asks (optional: a missing ask yields NoQuote when required), the
two trend classifications, the market-closed flag, time to close and market
type for sizing. -/
structure TickInput where
  market_id : Nat
  up_ask : Option ℚ
  down_ask : Option ℚ
  trend_up : TrendState
  trend_down : TrendState
  market_closed : Bool
  time_to_close : ℚ
  market_type : MarketType

/-- Modelled from the spec: the ask quoted for a given side on this tick. -/
def TickInput.ask (t : TickInput) : Side → Option ℚ
  | .up => t.up_ask
  | .down => t.down_ask

/-- Modelled from the spec: the trend classification for a given side. -/
def TickInput.trend (t : TickInput) : Side → TrendState
  | .up => t.trend_up
  | .down => t.trend_down

/-- Modelled from the spec: the side the Lock rule would buy — the side with
no shares when exactly one side is held, or the underweight side when both
are held; none when the position is empty or balanced. -/
def lockTarget (p : Position) : Option Side :=
  if 0 < p.up_shares ∧ p.down_shares < p.up_shares then some .down
  else if 0 < p.down_shares ∧ p.up_shares < p.down_shares then some .up
  else none

/-- Modelled from the spec: the Expansion rule's incremental buying loop —
buy size-share increments of the opposing side at its current ask while the
projected pnl-if-that-side-wins (after the candidate buy) is still lower than
the pnl-if-the-other-side-wins, up to the iteration cap. -/
def expansionFills (s : Side) (size ask : ℚ) : ℕ → Position → List (ℚ × ℚ)
  | 0, _ => []
  | n + 1, p =>
    let p2 := p.addFill s size ask
    if p2.pnlIfWins s < p2.pnlIfWins s.other then
      (size, ask) :: expansionFills s size ask n p2
    else []

/-- Modelled from the spec: the DecisionEngine's per-tick rule evaluation in
strict priority order — StaleMarket rejection, then No-Position, Lock,
Expansion, with the Ride fallback represented as NoAction.  At most the first
matching rule fires.  The No-Position rule enters with base_size bought twice
in immediate succession (the multiplier realised as two fills); the Lock rule
fires iff held_avg + current_ask(other side) < cost_per_pair_max (strict) and
buys the other side in two successive equal-size fills sized by SizingPolicy;
the Expansion rule fires when no lock is available, the opposing side's trend
is Rising, and the projected pnl-if-that-side-wins after the candidate buy is
still lower than the other side's. -/
def decideTick (cfg : StrategyConfig) (pos : Position) (t : TickInput) :
    Except EngineError Decision :=
  if t.market_closed then .error .StaleMarket
  else if pos.up_shares = 0 ∧ pos.down_shares = 0 then
    if t.trend_up = .Rising then
      match t.up_ask with
      | none => .error .NoQuote
      | some a =>
        let b := cfg.base_size t.market_type
        .ok (.act .noPositionRule .up [(b, a), (b, a)])
    else if t.trend_down = .Rising then
      match t.down_ask with
      | none => .error .NoQuote
      | some a =>
        let b := cfg.base_size t.market_type
        .ok (.act .noPositionRule .down [(b, a), (b, a)])
    else .ok .noAction
  else
    match lockTarget pos with
    | none => .ok .noAction
    | some s =>
      match t.ask s with
      | none => .error .NoQuote
      | some a =>
        if pos.avg s.other + a < cfg.cost_per_pair_max then
          let q := size_for cfg t.market_type t.time_to_close (pos.shares s)
          .ok (.act .lockRule s [(q, a), (q, a)])
        else if t.trend s = .Rising then
          let q := size_for cfg t.market_type t.time_to_close (pos.shares s)
          let fills := expansionFills s q a cfg.expansion_max_iters pos
          if fills.isEmpty then .ok .noAction
          else .ok (.act .expansionRule s fills)
        else .ok .noAction

/-- Modelled from the spec: per-market engine state for the tick step
relation — the lifecycle flag (Closed once terminal) and the ledger. -/
structure MarketState where
  closed : Bool
  ledger : Ledger
  deriving DecidableEq, Repr

/-- Modelled from the spec: apply a decided action's fills to the ledger,
appending one Trade per fill. -/
def Ledger.applyDecision (l : Ledger) (market : Nat) (d : Decision) : Ledger :=
  match d with
  | .noAction => l
  | .act _ s fills => fills.foldl (fun acc f => acc.addFill market s f.1 f.2) l

/-- Modelled from the spec: one tick-processing step — the engine is invoked
with the market's current lifecycle state; a Closed market is rejected with
StaleMarket (decideTick's first check) and the state is unchanged, otherwise
the decided fills are committed to the ledger. -/
def processTick (cfg : StrategyConfig) (st : MarketState) (t : TickInput) :
    MarketState × Except EngineError Decision :=
  match decideTick cfg st.ledger.pos { t with market_closed := st.closed } with
  | .error e => (st, .error e)
  | .ok d => ({ st with ledger := st.ledger.applyDecision t.market_id d }, .ok d)

/-- Modelled from the spec: the state after processing a sequence of ticks. -/
def processTrace (cfg : StrategyConfig) (st : MarketState) :
    List TickInput → MarketState
  | [] => st
  | t :: ts => processTrace cfg (processTick cfg st t).1 ts

/-- Modelled from the spec: the per-invocation engine results along a
sequence of ticks. -/
def traceResults (cfg : StrategyConfig) (st : MarketState) :
    List TickInput → List (Except EngineError Decision)
  | [] => []
  | t :: ts =>
    (processTick cfg st t).2 :: traceResults cfg (processTick cfg st t).1 ts

/-- Modelled from the spec: the external market-status query result. -/
structure MarketStatus where
  closed : Bool
  winner : Option Side
  deriving DecidableEq, Repr

/-- Modelled from the spec: the terminal SettlementRecord — winner, total
cost at closure, payout = winning_shares × 1.0, actual_pnl = payout − cost. -/
structure SettlementRecord where
  winner : Side
  total_cost : ℚ
  payout : ℚ
  actual_pnl : ℚ
  deriving DecidableEq, Repr

/-- Modelled from the spec: the state the ClosureResolver acts on — the
market lifecycle flag, recorded winner, the ledger, and the settlement log. -/
structure ResolverState where
  market_closed : Bool
  winner : Option Side
  ledger : Ledger
  settlements : List SettlementRecord
  deriving DecidableEq, Repr

/-- Modelled from the spec: one ClosureResolver poll — a no-op on an
already-Closed market; on first observing closure with a winner it computes
the SettlementRecord from the final Position (payout = winning_shares × 1.0,
actual_pnl = payout − total_cost) and performs the terminal transition; an
open status is also a no-op. -/
def resolveClosure (st : ResolverState) (status : MarketStatus) : ResolverState :=
  if st.market_closed then st
  else
    match status.closed, status.winner with
    | true, some w =>
      let payout := st.ledger.pos.shares w * 1
      let sr : SettlementRecord :=
        { winner := w
          total_cost := st.ledger.pos.total_cost
          payout := payout
          actual_pnl := payout - st.ledger.pos.total_cost }
      { st with market_closed := true, winner := some w,
                settlements := st.settlements ++ [sr] }
    | _, _ => st

/-- Modelled from the spec: a raw price tick with both asks present, used for
the documented exchange-mechanics invariant. -/
structure PriceTick where
  up_ask : ℚ
  down_ask : ℚ
  deriving DecidableEq, Repr

/-- Modelled from the spec: the documented Polymarket mechanics invariant —
the sum of Up and Down token prices is intentionally at least 1.00. -/
def exchangeSumInvariant (t : PriceTick) : Prop := 1 ≤ t.up_ask + t.down_ask

/-- Modelled from the spec: the superseded naive rule — buy both sides
simultaneously when up_ask + down_ask ≤ 0.98, otherwise no trade. -/
def supersededBothSidesAction (size : ℚ) (t : PriceTick) : Option (ℚ × ℚ) :=
  if t.up_ask + t.down_ask ≤ 98 / 100 then some (size, size) else none

/-- Concrete strategy configuration from the documented defaults:
cost_per_pair_max 0.99, BTC-15m base size 24 shares, with an Expansion cap of
one increment per tick as in logic.md Example 3. -/
def cfgStd : StrategyConfig :=
  { cost_per_pair_max := 99 / 100
    base_size := fun _ => 24
    size_reduce_after_secs := 60
    size_reduce_factor := 1 / 2
    size_min_shares := 6
    expansion_max_iters := 1 }

/-- Concrete configuration whose reduction factor would scale the quantity to
zero near market end. -/
def cfgZero : StrategyConfig :=
  { cost_per_pair_max := 99 / 100
    base_size := fun _ => 24
    size_reduce_after_secs := 60
    size_reduce_factor := 0
    size_min_shares := 6
    expansion_max_iters := 1 }

/-- Concrete tick of logic.md Example 1: Up ask 0.52, Down ask 0.49, Up trend
Rising, open BTC-15m market. -/
def tickA : TickInput :=
  { market_id := 1
    up_ask := some (52 / 100)
    down_ask := some (49 / 100)
    trend_up := .Rising
    trend_down := .NoProgress
    market_closed := false
    time_to_close := 600
    market_type := .btc15m }

/-- Position reached in logic.md Example 1 by applying the two 24-share fills
at 0.52 to the empty position. -/
def posA : Position := Position.empty.applyFills .up [(24, 52 / 100), (24, 52 / 100)]

/-- Concrete position of logic.md Example 2: 48 Up at average 0.52 (cost
24.96), no Down. -/
def posB : Position := ⟨48, 2496 / 100, 0, 0⟩

/-- Concrete tick of logic.md Example 2: Up ask 0.57, Down ask 0.44 (Down
cheap), open market. -/
def tickB : TickInput :=
  { market_id := 1
    up_ask := some (57 / 100)
    down_ask := some (44 / 100)
    trend_up := .Rising
    trend_down := .NoProgress
    market_closed := false
    time_to_close := 600
    market_type := .btc15m }

/-- Concrete tick of logic.md Example 3: Up ask 0.47, Down ask 0.54 (Down
expensive), Down trend Rising, open market. -/
def tickC : TickInput :=
  { market_id := 1
    up_ask := some (47 / 100)
    down_ask := some (54 / 100)
    trend_up := .NoProgress
    trend_down := .Rising
    market_closed := false
    time_to_close := 600
    market_type := .btc15m }

/-- Concrete resolver state for the closure scenario: open market holding
48 Up at 0.52 and 48 Down at 0.48 (total cost 48), no settlement yet. -/
def stD : ResolverState :=
  { market_closed := false
    winner := none
    ledger := ⟨⟨48, 624 / 25, 48, 576 / 25⟩, []⟩
    settlements := [] }

/-- Concrete market status reporting closure with Up as the winner. -/
def statusD : MarketStatus := ⟨true, some .up⟩

end PolyBot

namespace PolyBot

/-- Helper: characterization of the Rising classification. -/
theorem classify_rising_iff (w : List ℚ) :
    classify w = .Rising ↔
      3 ≤ w.length ∧ nondecList w = true ∧ w.headD 0 < w.getLastD 0 := by
  unfold classify
  split_ifs with h1 h2 h3
  · simp only [reduceCtorEq, false_iff]
    exact fun h => absurd h.1 (by omega)
  · simp only [Bool.and_eq_true, decide_eq_true_eq] at h2
    simp only [true_iff]
    exact ⟨by omega, h2.1, h2.2⟩
  · simp only [reduceCtorEq, false_iff]
    intro ⟨hl, hnd, hlt⟩
    exact h2 (by simp only [hnd, Bool.true_and, decide_eq_true_eq]; exact hlt)
  · simp only [reduceCtorEq, false_iff]
    intro ⟨hl, hnd, hlt⟩
    exact h2 (by simp only [hnd, Bool.true_and, decide_eq_true_eq]; exact hlt)

/-- Helper: characterization of the Falling classification. -/
theorem classify_falling_iff (w : List ℚ) :
    classify w = .Falling ↔
      3 ≤ w.length ∧ nonincList w = true ∧ w.getLastD 0 < w.headD 0 := by
  unfold classify
  split_ifs with h1 h2 h3
  · simp only [reduceCtorEq, false_iff]
    exact fun h => absurd h.1 (by omega)
  · simp only [Bool.and_eq_true, decide_eq_true_eq] at h2
    simp only [reduceCtorEq, false_iff]
    intro ⟨hl, hni, hlt⟩
    exact absurd h2.2 (by linarith)
  · simp only [Bool.and_eq_true, decide_eq_true_eq] at h3
    simp only [true_iff]
    exact ⟨by omega, h3.1, h3.2⟩
  · simp only [reduceCtorEq, false_iff]
    intro ⟨hl, hni, hlt⟩
    exact h3 (by simp only [hni, Bool.true_and, decide_eq_true_eq]; exact hlt)

/-- Helper: characterization of the NoProgress classification. -/
theorem classify_noprogress_iff (w : List ℚ) :
    classify w = .NoProgress ↔
      ¬(3 ≤ w.length ∧ nondecList w = true ∧ w.headD 0 < w.getLastD 0) ∧
      ¬(3 ≤ w.length ∧ nonincList w = true ∧ w.getLastD 0 < w.headD 0) := by
  constructor
  · intro h
    refine ⟨fun hA => ?_, fun hB => ?_⟩
    · rw [(classify_rising_iff w).2 hA] at h
      exact absurd h (by simp)
    · rw [(classify_falling_iff w).2 hB] at h
      exact absurd h (by simp)
  · intro ⟨hA, hB⟩
    cases hc : classify w with
    | Rising => exact absurd ((classify_rising_iff w).1 hc) hA
    | Falling => exact absurd ((classify_falling_iff w).1 hc) hB
    | NoProgress => rfl

/-- C5: for every trend window, the TrendDetector classifies Rising exactly
when the window holds at least 3 samples that are non-decreasing from
earliest to latest with a net increase, Falling exactly when it holds at
least 3 non-increasing samples with a net decrease, and NoProgress exactly
otherwise — in particular for every window with fewer than 3 samples, every
non-monotonic window, and every tie with no net movement. -/
theorem trend_classification_spec (w : List ℚ) :
    (classify w = .Rising ↔
      3 ≤ w.length ∧ nondecList w = true ∧ w.headD 0 < w.getLastD 0) ∧
    (classify w = .Falling ↔
      3 ≤ w.length ∧ nonincList w = true ∧ w.getLastD 0 < w.headD 0) ∧
    (classify w = .NoProgress ↔
      ¬(3 ≤ w.length ∧ nondecList w = true ∧ w.headD 0 < w.getLastD 0) ∧
      ¬(3 ≤ w.length ∧ nonincList w = true ∧ w.getLastD 0 < w.headD 0)) :=
  ⟨classify_rising_iff w, classify_falling_iff w, classify_noprogress_iff w⟩

/-- Witness for C5: a concrete 3-sample non-decreasing window with net
increase classifies as Rising. -/
theorem trend_classification_spec_witness :
    classify [1 / 2, 51 / 100, 52 / 100] = .Rising :=
  (trend_classification_spec [1 / 2, 51 / 100, 52 / 100]).1.2
    (by norm_num [nondecList])

/-- C1: on every open-market tick where the ledger holds shares on exactly
one side and the opposite ask is quoted at a, the Lock rule fires (the
engine returns a lockRule action buying the other side) if and only if
held_avg + a < cost_per_pair_max, with strict less-than; and when that
strict inequality holds the emitted action is two successive equal-size
fills of the other side at price a, sized by the SizingPolicy. -/
theorem lock_rule_fires_iff (cfg : StrategyConfig) (pos : Position) (t : TickInput)
    (s : Side) (a : ℚ)
    (hopen : t.market_closed = false)
    (hheld : 0 < pos.shares s)
    (hnone : pos.shares s.other = 0)
    (ha : t.ask s.other = some a) :
    ((∃ fills, decideTick cfg pos t = .ok (.act .lockRule s.other fills)) ↔
      pos.avg s + a < cfg.cost_per_pair_max) ∧
    (pos.avg s + a < cfg.cost_per_pair_max →
      decideTick cfg pos t = .ok (.act .lockRule s.other
        [(size_for cfg t.market_type t.time_to_close (pos.shares s.other), a),
         (size_for cfg t.market_type t.time_to_close (pos.shares s.other), a)])) := by
  have hlt : lockTarget pos = some s.other := by
    cases s
    · simp only [Position.shares, Side.other] at hheld hnone
      unfold lockTarget
      rw [if_pos ⟨hheld, by rw [hnone]; exact hheld⟩]
      rfl
    · simp only [Position.shares, Side.other] at hheld hnone
      unfold lockTarget
      rw [if_neg (by intro ⟨h1, h2⟩; rw [hnone] at h2; exact absurd h2 (by linarith)),
        if_pos ⟨hheld, by rw [hnone]; exact hheld⟩]
      rfl
  have hne : ¬(pos.up_shares = 0 ∧ pos.down_shares = 0) := by
    intro ⟨h1, h2⟩
    cases s
    · simp only [Position.shares] at hheld; rw [h1] at hheld; exact absurd hheld (by norm_num)
    · simp only [Position.shares] at hheld; rw [h2] at hheld; exact absurd hheld (by norm_num)
  have hoo : s.other.other = s := by cases s <;> rfl
  unfold decideTick
  rw [hopen]
  rw [if_neg (show ¬(false = true) by simp)]
  rw [if_neg hne]
  simp only [hlt, ha, hoo]
  by_cases hc : pos.avg s + a < cfg.cost_per_pair_max
  · rw [if_pos hc]
    exact ⟨⟨fun _ => hc, fun _ => ⟨_, rfl⟩⟩, fun _ => rfl⟩
  · rw [if_neg hc]
    refine ⟨⟨fun ⟨fills, hf⟩ => ?_, fun h => absurd h hc⟩, fun h => absurd h hc⟩
    split at hf
    · split at hf <;> simp at hf
    · simp at hf

/-- Witness for C1, Scenario B of the source documentation: holding 48 Up at
average 0.52 with the Down ask at 0.44, the lock condition 0.52 + 0.44 < 0.99
holds, the engine buys 24 + 24 Down, and the resulting 48 Up / 48 Down
position costs 0.96 per pair. -/
theorem lock_rule_fires_iff_witness :
    posB.avg .up + 11 / 25 < cfgStd.cost_per_pair_max ∧
    decideTick cfgStd posB tickB =
      .ok (.act .lockRule .down [(24, 44 / 100), (24, 44 / 100)]) ∧
    posB.applyFills .down [(24, 44 / 100), (24, 44 / 100)] =
      ⟨48, 624 / 25, 48, 528 / 25⟩ ∧
    (Position.mk 48 (624 / 25) 48 (528 / 25)).cost_per_pair = 24 / 25 := by
  have hcond : posB.avg .up + 11 / 25 < cfgStd.cost_per_pair_max := by
    norm_num [posB, Position.avg, Position.cost, Position.shares, cfgStd]
  have h := (lock_rule_fires_iff cfgStd posB tickB .up (11 / 25)
    rfl (by norm_num [posB, Position.shares])
    (by norm_num [posB, Position.shares, Side.other])
    (by norm_num [tickB, TickInput.ask, Side.other])).2 hcond
  refine ⟨hcond, ?_, ?_, ?_⟩
  · rw [h]
    norm_num [size_for, cfgStd, tickB, posB, Position.shares, Side.other]
  · norm_num [posB, Position.applyFills, Position.addFill]
  · norm_num [Position.cost_per_pair, Position.total_cost, Position.pairs]

/-- C2, Scenario A of the source documentation: from the empty position with
the Up trend Rising and the Up ask at 0.52, the No-Position rule fires and
the engine buys 24 Up and then 24 Up again as two legs; the resulting
position is 48 Up at average price 0.52 with up_cost 24.96,
pnl_if_up_wins 23.04 and pnl_if_down_wins −24.96. -/
theorem no_position_scenario_a :
    decideTick cfgStd Position.empty tickA =
      .ok (.act .noPositionRule .up [(24, 52 / 100), (24, 52 / 100)]) ∧
    posA = ⟨48, 2496 / 100, 0, 0⟩ ∧
    posA.up_shares = 48 ∧
    posA.avg .up = 52 / 100 ∧
    posA.up_cost = 2496 / 100 ∧
    posA.pnl_if_up_wins = 2304 / 100 ∧
    posA.pnl_if_down_wins = -(2496 / 100) := by
  refine ⟨?_, ?_, ?_, ?_, ?_, ?_, ?_⟩ <;>
    norm_num [decideTick, Position.empty, tickA, cfgStd, posA,
      Position.applyFills, Position.addFill, Position.avg, Position.cost,
      Position.shares, Position.pnl_if_up_wins, Position.pnl_if_down_wins,
      Position.total_cost]

/-- C3: the DecisionEngine evaluates rules in strict priority order, so
whenever the Expansion rule fires for a side whose ask is a, the Lock
condition held_avg(other side) + a < cost_per_pair_max must have failed
(Lock takes priority and at most the first matching rule fires); and in the
concrete Scenario C — 48 Up held at 0.52, Down ask 0.54, Down trend Rising —
the lock condition fails because 0.52 + 0.54 = 1.06 ≥ 0.99 and the engine
instead fires the Expansion rule, buying 24 Down unpaired. -/
theorem expansion_never_when_lock :
    (∀ (cfg : StrategyConfig) (pos : Position) (t : TickInput) (s : Side)
      (fills : List (ℚ × ℚ)) (a : ℚ),
      decideTick cfg pos t = .ok (.act .expansionRule s fills) →
      t.ask s = some a →
      ¬(pos.avg s.other + a < cfg.cost_per_pair_max)) ∧
    ¬(posB.avg .up + 54 / 100 < cfgStd.cost_per_pair_max) ∧
    decideTick cfgStd posB tickC =
      .ok (.act .expansionRule .down [(24, 54 / 100)]) := by
  refine ⟨?_, ?_, ?_⟩
  · intro cfg pos t s fills a hfired ha
    unfold decideTick at hfired
    split at hfired
    · simp at hfired
    · split at hfired
      · split at hfired
        · split at hfired <;> simp at hfired
        · split at hfired
          · split at hfired <;> simp at hfired
          · simp at hfired
      · split at hfired
        · simp at hfired
        · rename_i s2 heq
          split at hfired
          · simp at hfired
          · rename_i a2 hask
            split at hfired
            · simp at hfired
            · rename_i hneg
              split at hfired
              · simp only [] at hfired
                split at hfired
                · simp at hfired
                · simp only [Except.ok.injEq, Decision.act.injEq] at hfired
                  obtain ⟨-, hs, -⟩ := hfired
                  subst hs
                  rw [ha] at hask
                  injection hask with haa
                  rw [haa]
                  exact hneg
              · simp at hfired
  · norm_num [posB, Position.avg, Position.cost, Position.shares, cfgStd]
  · norm_num [decideTick, posB, tickC, cfgStd, lockTarget, Position.avg,
      Position.cost, Position.shares, TickInput.ask, TickInput.trend,
      expansionFills, Position.addFill, Position.pnlIfWins, Position.total_cost,
      Side.other, size_for]

/-- Witness for C3: applying the priority statement at the concrete
Scenario C input derives that the lock condition fails there. -/
theorem expansion_never_when_lock_witness :
    ¬(posB.avg .up + 54 / 100 < cfgStd.cost_per_pair_max) :=
  expansion_never_when_lock.1 cfgStd posB tickC .down [(24, 54 / 100)]
    (54 / 100) expansion_never_when_lock.2.2
    (by norm_num [tickC, TickInput.ask])

/-- C4: once a market has transitioned to Closed, processing any further
sequence of ticks leaves the engine state (lifecycle flag and entire ledger)
unchanged and every single DecisionEngine invocation fails with StaleMarket
rather than being silently ignored — a post-closure buy never occurs along
any trace. -/
theorem stale_market_invariant (cfg : StrategyConfig) (st : MarketState)
    (ts : List TickInput) (hclosed : st.closed = true) :
    processTrace cfg st ts = st ∧
    traceResults cfg st ts = ts.map (fun _ => .error .StaleMarket) := by
  have hstep : ∀ t, processTick cfg st t = (st, .error .StaleMarket) := by
    intro t
    unfold processTick decideTick
    simp [hclosed]
  induction ts with
  | nil => exact ⟨rfl, rfl⟩
  | cons t ts ih =>
    rw [processTrace, traceResults, hstep t]
    exact ⟨ih.1, by rw [List.map_cons, ih.2]⟩

/-- Witness for C4: a closed market with an empty ledger rejects two
successive ticks with StaleMarket and its state is unchanged. -/
theorem stale_market_invariant_witness :
    processTrace cfgStd ⟨true, Ledger.empty⟩ [tickA, tickB] = ⟨true, Ledger.empty⟩ ∧
    traceResults cfgStd ⟨true, Ledger.empty⟩ [tickA, tickB] =
      [.error .StaleMarket, .error .StaleMarket] := by
  have h := stale_market_invariant cfgStd ⟨true, Ledger.empty⟩ [tickA, tickB] rfl
  exact ⟨h.1, by rw [h.2]; rfl⟩

/-- C6: record_fill succeeds exactly when qty > 0 and the price lies in the
open interval (0,1); on success it appends exactly one Trade and increments
that side alone, adding qty to its shares and qty × price to its cost while
the other side is untouched; otherwise it fails with InvalidFill and, the
update being the returned value, performs no mutation at all. -/
theorem record_fill_spec (l : Ledger) (market : Nat) (s : Side) (qty price : ℚ) :
    ((∃ l2, record_fill l market s qty price = .ok l2) ↔
      0 < qty ∧ 0 < price ∧ price < 1) ∧
    (0 < qty ∧ 0 < price ∧ price < 1 →
      record_fill l market s qty price = .ok (l.addFill market s qty price) ∧
      (l.addFill market s qty price).trades = l.trades ++ [⟨market, s, qty, price⟩] ∧
      (l.addFill market s qty price).pos.shares s = l.pos.shares s + qty ∧
      (l.addFill market s qty price).pos.cost s = l.pos.cost s + qty * price ∧
      (l.addFill market s qty price).pos.shares s.other = l.pos.shares s.other ∧
      (l.addFill market s qty price).pos.cost s.other = l.pos.cost s.other) ∧
    (¬(0 < qty ∧ 0 < price ∧ price < 1) →
      record_fill l market s qty price = .error .invalidFill) := by
  unfold record_fill
  refine ⟨?_, fun h => ?_, fun h => by rw [if_neg h]⟩
  · constructor
    · intro ⟨l2, h2⟩
      by_cases hc : 0 < qty ∧ 0 < price ∧ price < 1
      · exact hc
      · rw [if_neg hc] at h2; simp at h2
    · intro hc
      exact ⟨_, by rw [if_pos hc]⟩
  · rw [if_pos h]
    refine ⟨rfl, rfl, ?_, ?_, ?_, ?_⟩ <;>
      cases s <;>
      simp [Ledger.addFill, Position.addFill, Position.shares, Position.cost,
        Side.other]

/-- Witness for C6: a valid 24-share fill at 0.52 succeeds and produces the
expected ledger, while a zero-quantity fill fails with InvalidFill. -/
theorem record_fill_spec_witness :
    record_fill Ledger.empty 1 .up 24 (52 / 100) =
      .ok ⟨⟨24, 1248 / 100, 0, 0⟩, [⟨1, .up, 24, 52 / 100⟩]⟩ ∧
    record_fill Ledger.empty 1 .up 0 (52 / 100) = .error .invalidFill := by
  constructor
  · have h := ((record_fill_spec Ledger.empty 1 .up 24 (52 / 100)).2.1
      (by norm_num)).1
    rw [h]
    norm_num [Ledger.empty, Ledger.addFill, Position.empty, Position.addFill]
  · exact (record_fill_spec Ledger.empty 1 .up 0 (52 / 100)).2.2 (by norm_num)

/-- C7: for every market type, time to close and prior share count, and any
configuration whose floor is non-negative, SizingPolicy.size_for returns a
quantity that is at least the configured size_min_shares floor and never
negative — even as time_to_close reaches 0 and even when the configured
reduction factor would scale the quantity to zero. -/
theorem size_for_floor (cfg : StrategyConfig) (mt : MarketType)
    (time_to_close shares_so_far : ℚ) (hmin : 0 ≤ cfg.size_min_shares) :
    cfg.size_min_shares ≤ size_for cfg mt time_to_close shares_so_far ∧
    0 ≤ size_for cfg mt time_to_close shares_so_far := by
  unfold size_for
  exact ⟨le_max_right _ _, le_trans hmin (le_max_right _ _)⟩

/-- Witness for C7: with a reduction factor of zero and time_to_close 0 the
returned quantity is still the floor of 6 shares, not zero. -/
theorem size_for_floor_witness :
    0 ≤ cfgZero.size_min_shares ∧
    cfgZero.size_min_shares ≤ size_for cfgZero .btc15m 0 48 ∧
    0 ≤ size_for cfgZero .btc15m 0 48 ∧
    size_for cfgZero .btc15m 0 48 = 6 := by
  have hmin : (0:ℚ) ≤ cfgZero.size_min_shares := by norm_num [cfgZero]
  have h := size_for_floor cfgZero .btc15m 0 48 hmin
  exact ⟨hmin, h.1, h.2, by norm_num [size_for, cfgZero]⟩

/-- C8: the ClosureResolver is idempotent — resolving twice equals resolving
once, resolving an already-Closed market is a no-op that creates no second
SettlementRecord and performs no ledger mutation, and only the first
observation of closure appends the single SettlementRecord computed from the
final ledger with payout = winning_shares × 1.0 and
actual_pnl = payout − total_cost, leaving the ledger itself untouched. -/
theorem closure_resolver_idempotent (st : ResolverState) (status : MarketStatus) :
    resolveClosure (resolveClosure st status) status = resolveClosure st status ∧
    (st.market_closed = true → resolveClosure st status = st) ∧
    (∀ w, st.market_closed = false → status.closed = true →
      status.winner = some w →
      (resolveClosure st status).market_closed = true ∧
      (resolveClosure st status).ledger = st.ledger ∧
      (resolveClosure st status).settlements = st.settlements ++
        [⟨w, st.ledger.pos.total_cost, st.ledger.pos.shares w * 1,
          st.ledger.pos.shares w * 1 - st.ledger.pos.total_cost⟩]) := by
  by_cases hc : st.market_closed = true
  · have hid : resolveClosure st status = st := by
      unfold resolveClosure; rw [if_pos hc]
    rw [hid]
    exact ⟨hid, fun _ => rfl, fun w hop _ _ => by rw [hop] at hc; simp at hc⟩
  · obtain ⟨sc, sw⟩ := status
    cases sc
    · have hid : resolveClosure st ⟨false, sw⟩ = st := by
        unfold resolveClosure; rw [if_neg hc]
      rw [hid]
      exact ⟨hid, fun h => absurd h hc, fun w _ h2 _ => by simp at h2⟩
    · cases sw with
      | none =>
        have hid : resolveClosure st ⟨true, none⟩ = st := by
          unfold resolveClosure; rw [if_neg hc]
        rw [hid]
        exact ⟨hid, fun h => absurd h hc, fun w _ _ h3 => by simp at h3⟩
      | some w =>
        have hres : resolveClosure st ⟨true, some w⟩ =
            { st with
                market_closed := true
                winner := some w
                settlements := st.settlements ++
                  [⟨w, st.ledger.pos.total_cost, st.ledger.pos.shares w * 1,
                    st.ledger.pos.shares w * 1 - st.ledger.pos.total_cost⟩] } := by
          unfold resolveClosure; rw [if_neg hc]
        rw [hres]
        refine ⟨?_, fun h => absurd h hc, fun w2 _ _ h3 => ?_⟩
        · unfold resolveClosure; rw [if_pos rfl]
        · injection h3 with hw
          subst hw
          exact ⟨rfl, rfl, rfl⟩

/-- Witness for C8, Scenario D of the source documentation: closing the
48 Up / 48 Down position with Up as winner settles at payout 48, total cost
48 and actual PnL 0, and resolving again changes nothing. -/
theorem closure_resolver_idempotent_witness :
    (resolveClosure stD statusD).settlements = [⟨.up, 48, 48, 0⟩] ∧
    resolveClosure (resolveClosure stD statusD) statusD =
      resolveClosure stD statusD := by
  have h := closure_resolver_idempotent stD statusD
  have h3 := h.2.2 .up rfl rfl rfl
  refine ⟨?_, h.1⟩
  rw [h3.2.2]
  norm_num [stD, Position.total_cost, Position.shares]

/-- C9: for every price tick satisfying the documented exchange invariant
up_ask + down_ask ≥ 1.00, the simultaneous-purchase condition
up_ask + down_ask ≤ 0.98 is false, so the superseded rule that buys both
sides at once never produces a trade on such a tick. -/
theorem superseded_rule_never_trades (size : ℚ) (t : PriceTick)
    (h : exchangeSumInvariant t) : supersededBothSidesAction size t = none := by
  unfold exchangeSumInvariant at h
  unfold supersededBothSidesAction
  rw [if_neg]
  intro hle
  linarith

/-- Witness for C9: at the documented quote 0.52 / 0.49 (sum 1.01) the
superseded both-sides rule produces no trade. -/
theorem superseded_rule_never_trades_witness :
    supersededBothSidesAction 24 ⟨52 / 100, 49 / 100⟩ = none :=
  superseded_rule_never_trades 24 ⟨52 / 100, 49 / 100⟩
    (by norm_num [exchangeSumInvariant])

/-- C10: every confirmed fill of quantity q > 0 at a price p in (0,1) on a
side raises the pnl-if-that-side-wins by exactly q × (1 − p) and lowers the
pnl-if-the-other-side-wins by exactly q × p; in particular every buy strictly
improves the bought side and strictly worsens the opposite win case. -/
theorem buy_pnl_deltas (p : Position) (s : Side) (q pr : ℚ)
    (hq : 0 < q) (hp0 : 0 < pr) (hp1 : pr < 1) :
    (p.addFill s q pr).pnlIfWins s = p.pnlIfWins s + q * (1 - pr) ∧
    (p.addFill s q pr).pnlIfWins s.other = p.pnlIfWins s.other - q * pr ∧
    p.pnlIfWins s < (p.addFill s q pr).pnlIfWins s ∧
    (p.addFill s q pr).pnlIfWins s.other < p.pnlIfWins s.other := by
  cases s <;>
    simp only [Position.addFill, Position.pnlIfWins, Position.shares,
      Position.total_cost, Side.other] <;>
    refine ⟨by ring, by ring, by nlinarith, by nlinarith⟩

/-- Witness for C10: buying 24 Down at 0.54 on top of 48 Up at 0.52 raises
pnl-if-Down-wins by 24 × 0.46 and lowers pnl-if-Up-wins by 24 × 0.54. -/
theorem buy_pnl_deltas_witness :
    (posB.addFill .down 24 (54 / 100)).pnlIfWins .down =
      posB.pnlIfWins .down + 24 * (1 - 54 / 100) ∧
    (posB.addFill .down 24 (54 / 100)).pnlIfWins .up =
      posB.pnlIfWins .up - 24 * (54 / 100) ∧
    posB.pnlIfWins .down < (posB.addFill .down 24 (54 / 100)).pnlIfWins .down ∧
    (posB.addFill .down 24 (54 / 100)).pnlIfWins .up < posB.pnlIfWins .up :=
  buy_pnl_deltas posB .down 24 (54 / 100) (by norm_num) (by norm_num) (by norm_num)

end PolyBot
